import Mathlib

/-!
Verification of the `ichigyo-ls` language-server core: a shallow embedding
of `src/textlint.rs` (coordinate translation) and `src/server.rs`
(diagnostic building, the document state store, and the quick-fix mapper),
with theorems settling the specification claims.

Document text is modelled as `List Char` (a Lean `Char` is a Unicode
scalar value, exactly what Rust's `str::chars` iterates over).
-/

namespace IchigyoLs

/-- Rust `char::len_utf8`: the UTF-8 byte length of a Unicode scalar value. -/
def charLenUtf8 (c : Char) : Nat :=
  if c.toNat < 0x80 then 1
  else if c.toNat < 0x800 then 2
  else if c.toNat < 0x10000 then 3
  else 4

/-- Rust `char::len_utf16`: the number of 16-bit code units of a
Unicode scalar value (2 for a code point outside the BMP). -/
def charLenUtf16 (c : Char) : Nat :=
  if c.toNat < 0x10000 then 1 else 2

/-- `PositionEncoding` from `src/textlint.rs`: the encoding used for
`Position.character`, chosen by client negotiation. -/
inductive PositionEncoding where
  | Utf8
  | Utf16
  | Utf32
deriving DecidableEq, Repr

/-- `Position` from `src/textlint.rs`: 0-based line and character. -/
structure Position where
  line : Nat
  character : Nat
deriving DecidableEq, Repr

/-- The mutable scan state of the loop in `offset_to_position`
(`src/textlint.rs`): one field per local variable of the Rust function. -/
structure ScanState where
  line : Nat
  utf16_count : Nat
  line_start_utf16 : Nat
  line_start_byte : Nat
  line_start_chars : Nat
  byte_count : Nat
  char_count : Nat
deriving DecidableEq, Repr

/-- The all-zero initial scan state of `offset_to_position`. -/
def initScan : ScanState := ⟨0, 0, 0, 0, 0, 0, 0⟩

/-- One iteration of the loop body of `offset_to_position` (after the
break test): bump the line bookkeeping on a newline, then advance the
three running counters by the code point's size in each unit. -/
def scanStep (s : ScanState) (ch : Char) : ScanState :=
  let utf16_len := charLenUtf16 ch
  let utf8_len := charLenUtf8 ch
  let s' :=
    if ch = '\n' then
      { s with
        line := s.line + 1
        line_start_utf16 := s.utf16_count + utf16_len
        line_start_byte := s.byte_count + utf8_len
        line_start_chars := s.char_count + 1 }
    else s
  { s' with
    utf16_count := s.utf16_count + utf16_len
    byte_count := s.byte_count + utf8_len
    char_count := s.char_count + 1 }

/-- The `for ch in text.chars()` loop of `offset_to_position`: before
consuming each code point the loop breaks when the running 16-bit count
equals `offset`; otherwise it advances the state with `scanStep`. -/
def scanLoop (cs : List Char) (offset : Nat) (s : ScanState) : ScanState :=
  match cs with
  | [] => s
  | c :: rest =>
    if s.utf16_count = offset then s
    else scanLoop rest offset (scanStep s c)

/-- `offset_to_position` from `src/textlint.rs`: convert a character
offset counted in 16-bit code units into a `Position` whose `character`
is measured from the start of its line in the requested encoding. -/
def offset_to_position (text : List Char) (offset : Nat)
    (encoding : PositionEncoding) : Position :=
  let s := scanLoop text offset initScan
  let character :=
    match encoding with
    | .Utf8 => s.byte_count - s.line_start_byte
    | .Utf16 => s.utf16_count - s.line_start_utf16
    | .Utf32 => s.char_count - s.line_start_chars
  ⟨s.line, character⟩

/-- The suffix of the text starting at the target line: the Rust code
computes `line_start_byte` by locating the byte just past the
`line_0based`-th newline (or `text.len()` when there are fewer newlines)
and then slices `text[line_start_byte..]`; on a `List Char` that slice is
the suffix after dropping through that many newlines. -/
def lineStartSuffix : List Char → Nat → List Char
  | cs, 0 => cs
  | [], _ + 1 => []
  | c :: rest, n + 1 =>
    if c = '\n' then lineStartSuffix rest n else lineStartSuffix rest (n + 1)

/-- The walking loop of `textlint_column_to_character`: consume code
points from the line start until `target` 16-bit units have been walked
or a newline is reached, accumulating the result in the requested unit.
The `Utf16` arm of the Rust `match` is `unreachable!()` (the caller
returns early for that encoding); it is modelled as adding 0. -/
def walkColumn (enc : PositionEncoding) :
    List Char → Nat → Nat → Nat → Nat
  | [], _, _, result => result
  | c :: rest, target, walked, result =>
    if walked ≥ target ∨ c = '\n' then result
    else
      walkColumn enc rest target (walked + charLenUtf16 c)
        (result +
          match enc with
          | .Utf8 => charLenUtf8 c
          | .Utf32 => 1
          | .Utf16 => 0)

/-- `textlint_column_to_character` from `src/textlint.rs`: convert the
linter's 1-based column (in 16-bit units) on the given 0-based line into
a 0-based character count in the target encoding. `Nat` subtraction is
saturating, matching the Rust `saturating_sub`. -/
def textlint_column_to_character (text : List Char) (line_0based : Nat)
    (column_1based : Nat) (encoding : PositionEncoding) : Nat :=
  if encoding = PositionEncoding.Utf16 then
    column_1based - 1
  else
    walkColumn encoding (lineStartSuffix text line_0based)
      (column_1based - 1) 0 0

/-- `FixCommand` from `src/textlint.rs`: a half-open replacement range
(two character offsets in 16-bit units into the linted text) plus the
replacement string. -/
structure FixCommand where
  range : Nat × Nat
  text : String
deriving DecidableEq, Repr

/-- `TextlintMessage` from `src/textlint.rs`. `line` and `column` are the
linter's 1-based coordinates; `column` is in 16-bit units. -/
structure TextlintMessage where
  rule_id : String
  message : String
  line : Nat
  column : Nat
  severity : Nat
  fix : Option FixCommand
deriving DecidableEq, Repr

/-- `TextlintResult` from `src/textlint.rs`: one linted file's messages.
The document text is carried as `List Char` elsewhere, so `file_path`
stays a `String`. -/
structure TextlintResult where
  file_path : String
  messages : List TextlintMessage
deriving DecidableEq, Repr

/-- The two `DiagnosticSeverity` values `src/server.rs` ever produces. -/
inductive DiagnosticSeverity where
  | warning
  | error
deriving DecidableEq, Repr

/-- The fields of the LSP `Diagnostic` that `src/server.rs` fills in. -/
structure Diagnostic where
  range_start : Position
  range_end : Position
  severity : Option DiagnosticSeverity
  source : Option String
  code : Option String
  message : String
deriving DecidableEq, Repr

/-- The per-document state of `Backend` (`src/server.rs`):
`DashMap<Url, (String, Vec<TextlintMessage>)>`, modelled as an
association list keyed by the URI with the text/messages pair stored as
a single value (mirroring that the `DashMap` holds the pair as one
entry value, replaced atomically per key by `insert`). -/
def Store : Type := List (String × (List Char × List TextlintMessage))

/-- `DashMap::insert`: replace the value under the key, or add the
entry when the key is absent. -/
def storeInsert : Store → String → List Char × List TextlintMessage → Store
  | [], k, v => [(k, v)]
  | (k', v') :: rest, k, v =>
    if k' = k then (k, v) :: rest else (k', v') :: storeInsert rest k v

/-- `DashMap::get`: look up the text/messages pair stored under a key. -/
def storeGet : Store → String → Option (List Char × List TextlintMessage)
  | [], _ => none
  | (k', v') :: rest, k => if k' = k then some v' else storeGet rest k

/-- The diagnostic construction inside `Backend::lint_and_publish`
(`src/server.rs`): 1-based line/column become 0-based via saturating
subtraction, the range is zero-width, severity 1 maps to warning and
everything else to error. -/
def buildDiagnostic (msg : TextlintMessage) : Diagnostic :=
  let line := msg.line - 1
  let col := msg.column - 1
  { range_start := ⟨line, col⟩
    range_end := ⟨line, col⟩
    severity := some (match msg.severity with
      | 1 => DiagnosticSeverity.warning
      | _ => DiagnosticSeverity.error)
    source := some "textlint"
    code := some msg.rule_id
    message := msg.message }

/-- `Backend::lint_and_publish` (`src/server.rs`), as a function of its
observable inputs: whether the URI resolved to a file path, whether a
working directory was available (`root_dir` or the path's parent), and
the runner's result (the runner is an external collaborator, so its
returned value is the input). Output: the new store and the diagnostics
published to the client (`none` when nothing is published). -/
def lint_and_publish (pathOk : Bool) (workDirOk : Bool)
    (runResult : Except String (List TextlintResult))
    (uri : String) (text : List Char) (state : Store) :
    Store × Option (List Diagnostic) :=
  if !pathOk then (state, none)
  else if !workDirOk then (state, none)
  else
    match runResult with
    | .error _ => (state, none)
    | .ok results =>
      let messages := (results.map TextlintResult.messages).flatten
      let diagnostics := messages.map buildDiagnostic
      (storeInsert state uri (text, messages), some diagnostics)

/-- Modelled from the spec: `Backend::code_action` calls
`textlint::utf16_offset_to_position(text, fix.range[i])`, whose
definition is not under `src/`. Per the spec's Fix Mapper contract the
fix offsets are 16-bit-unit offsets translated via `offset_to_position`,
and the caller's name and two-argument signature fix the encoding to the
16-bit-unit encoding. -/
def utf16_offset_to_position (text : List Char) (offset : Nat) : Position :=
  offset_to_position text offset PositionEncoding.Utf16

/-- A `TextEdit` as built by `Backend::code_action`. -/
structure TextEdit where
  range_start : Position
  range_end : Position
  new_text : String
deriving DecidableEq, Repr

/-- A quick-fix `CodeAction` as built by `Backend::code_action`: the
title `"Fix: {message} ({rule_id})"`, kind quickfix, and a `WorkspaceEdit`
whose changes map holds exactly one entry (the request URI with a single
edit), modelled as that association list. -/
structure CodeAction where
  title : String
  kind : String
  changes : List (String × List TextEdit)
deriving DecidableEq, Repr

/-- The action built by `Backend::code_action` for one surviving message
and its fix. -/
def fixAction (uri : String) (text : List Char) (msg : TextlintMessage)
    (fix : FixCommand) : CodeAction :=
  let start := utf16_offset_to_position text fix.range.1
  let «end» := utf16_offset_to_position text fix.range.2
  { title := "Fix: " ++ msg.message ++ " (" ++ msg.rule_id ++ ")"
    kind := "quickfix"
    changes := [(uri, [{ range_start := ⟨start.line, start.character⟩
                         range_end := ⟨«end».line, «end».character⟩
                         new_text := fix.text }])] }

/-- The `for msg in messages` loop of `Backend::code_action`
(`src/server.rs`): skip a message without a fix, skip a message whose
0-based line lies outside the requested line range, and push one action
per surviving message. -/
def codeActionLoop (uri : String) (text : List Char)
    (startLine endLine : Nat) : List TextlintMessage → List CodeAction
  | [] => []
  | msg :: rest =>
    match msg.fix with
    | none => codeActionLoop uri text startLine endLine rest
    | some fix =>
      let msg_line := msg.line - 1
      if msg_line < startLine ∨ endLine < msg_line then
        codeActionLoop uri text startLine endLine rest
      else
        fixAction uri text msg fix :: codeActionLoop uri text startLine endLine rest

/-- `Backend::code_action` (`src/server.rs`): look up the document in
the store (absent → `Ok(None)`), run the loop over the stored messages,
and return `Ok(None)` when no action was produced, `Ok(Some actions)`
otherwise. The Rust function always returns `Ok`, modelled by the
`Except` never being `error`. -/
def code_action (state : Store) (uri : String)
    (startLine endLine : Nat) : Except String (Option (List CodeAction)) :=
  match storeGet state uri with
  | none => Except.ok none
  | some (text, messages) =>
    let actions := codeActionLoop uri text startLine endLine messages
    if actions.isEmpty then Except.ok none else Except.ok (some actions)

/-- The Fix Mapper contract as worded in the spec (§4.4), stated
independently for comparison with the code's `codeActionLoop`: iterate
the messages in order, skip a message without a fix, skip a message
whose 0-based line `message.line - 1` falls outside the inclusive
requested line range, and for each surviving message emit one action
whose single edit replaces the positions obtained by translating
`fix.range[0]` and `fix.range[1]` (16-bit-unit offsets) via
`offset_to_position` with the replacement text `fix.text`. -/
def build_fixes_spec (uri : String) (text : List Char) (lo hi : Nat)
    (messages : List TextlintMessage) : List CodeAction :=
  messages.filterMap fun msg =>
    match msg.fix with
    | none => none
    | some fix =>
      if lo ≤ msg.line - 1 ∧ msg.line - 1 ≤ hi then
        some
          { title := "Fix: " ++ msg.message ++ " (" ++ msg.rule_id ++ ")"
            kind := "quickfix"
            changes := [(uri,
              [{ range_start :=
                   offset_to_position text fix.range.1 PositionEncoding.Utf16
                 range_end :=
                   offset_to_position text fix.range.2 PositionEncoding.Utf16
                 new_text := fix.text }])] }
      else none

/-- Total 16-bit-unit length of a text. -/
def utf16Len : List Char → Nat
  | [] => 0
  | c :: cs => charLenUtf16 c + utf16Len cs

/-- Apply a sequence of upserts for one key to the store, in order. -/
def applyUpserts (key : String)
    (ops : List (List Char × List TextlintMessage)) (st : Store) : Store :=
  ops.foldl (fun acc v => storeInsert acc key v) st

/-! Concrete example inputs used by the counterexamples and witnesses. -/

/-- The text `"a" + U+20BB7 + "b"`: one code point outside the BMP
between two ASCII letters. -/
def surrogateText : List Char := ['a', Char.ofNat 0x20BB7, 'b']

/-- Example document text `"あいう"`: three BMP code points of 3 UTF-8
bytes each. -/
def hiraText : List Char := ['あ', 'い', 'う']

/-- Example fix on `hiraText`: replace the half-open 16-bit-unit range
`[1, 2)`. -/
def hiraFix : FixCommand := ⟨(1, 2), "x"⟩

/-- Example message on `hiraText`: 1-based line 1, 1-based column 2
(16-bit units), severity 2, carrying `hiraFix`. -/
def hiraMsg : TextlintMessage :=
  ⟨"rule-x", "msg-x", 1, 2, 2, some hiraFix⟩

/-- Example linter result wrapping `hiraMsg`. -/
def hiraResult : TextlintResult := ⟨"a.md", [hiraMsg]⟩

/-- Nine-line example text (lines `a` through `i`, one letter per line). -/
def nineLineText : List Char :=
  ['a', '\n', 'b', '\n', 'c', '\n', 'd', '\n', 'e', '\n',
   'f', '\n', 'g', '\n', 'h', '\n', 'i']

/-- Fix for the message on 1-based line 1 of `nineLineText`. -/
def lineFix1 : FixCommand := ⟨(0, 1), "A"⟩

/-- Fix for the message on 1-based line 5 of `nineLineText`. -/
def lineFix5 : FixCommand := ⟨(8, 9), "E"⟩

/-- Fix for the message on 1-based line 9 of `nineLineText`. -/
def lineFix9 : FixCommand := ⟨(16, 17), "I"⟩

/-- Message with a fix on 1-based line 1. -/
def lineMsg1 : TextlintMessage := ⟨"r1", "m1", 1, 1, 2, some lineFix1⟩

/-- Message with a fix on 1-based line 5. -/
def lineMsg5 : TextlintMessage := ⟨"r5", "m5", 5, 1, 2, some lineFix5⟩

/-- Message with a fix on 1-based line 9. -/
def lineMsg9 : TextlintMessage := ⟨"r9", "m9", 9, 1, 2, some lineFix9⟩

/-- A message with no fix (on line 1). -/
def noFixMsg : TextlintMessage := ⟨"max-ten", "m", 1, 1, 1, none⟩

/-- A store whose only document carries a single message without a fix. -/
def noFixStore : Store := storeInsert [] "file:doc1" (hiraText, [noFixMsg])

/-- First message of the store-atomicity scenario. -/
def storeMsgA : TextlintMessage := ⟨"rule-a", "a", 1, 1, 2, none⟩

/-- Second message of the store-atomicity scenario. -/
def storeMsgB : TextlintMessage := ⟨"rule-b", "b", 2, 2, 1, none⟩

/-- Text of the first upsert of the store-atomicity scenario. -/
def storeTextV1 : List Char := ['v', '1']

/-- Text of the second upsert of the store-atomicity scenario. -/
def storeTextV2 : List Char := ['v', '2']

/-! Helper lemmas about the scan loop of `offset_to_position`. -/

theorem utf16Len_append (xs ys : List Char) :
    utf16Len (xs ++ ys) = utf16Len xs + utf16Len ys := by
  induction xs with
  | nil => simp [utf16Len]
  | cons c cs ih => simp [utf16Len, ih]; omega

theorem charLenUtf16_pos (c : Char) : 1 ≤ charLenUtf16 c := by
  unfold charLenUtf16
  split <;> omega

theorem scanStep_utf16_count (s : ScanState) (c : Char) :
    (scanStep s c).utf16_count = s.utf16_count + charLenUtf16 c := by
  by_cases h : c = '\n' <;> simp [scanStep, h]

/-- When the target offset is never hit at a code-point boundary, the
break condition of the scan loop never fires and the loop folds over
the whole text. -/
theorem scanLoop_eq_foldl (cs : List Char) (offset : Nat) (s : ScanState)
    (h : ∀ p c q, cs = p ++ c :: q → s.utf16_count + utf16Len p ≠ offset) :
    scanLoop cs offset s = cs.foldl scanStep s := by
  induction cs generalizing s with
  | nil => rfl
  | cons c rest ih =>
    have h0 : s.utf16_count ≠ offset := by
      have := h [] c rest rfl
      simpa [utf16Len] using this
    rw [scanLoop, if_neg h0, List.foldl_cons]
    apply ih
    intro p c' q hpq
    have hcp := h (c :: p) c' q (by rw [hpq]; rfl)
    rw [scanStep_utf16_count]
    simp only [utf16Len] at hcp ⊢
    omega

/-- An offset strictly inside a surrogate pair is not the 16-bit count
of any code-point-aligned proper prefix of the text. -/
theorem mid_surrogate_never_boundary (pre post : List Char) (c : Char)
    (hc : charLenUtf16 c = 2) :
    ∀ p c' q, pre ++ c :: post = p ++ c' :: q →
      utf16Len p ≠ utf16Len pre + 1 := by
  intro p c' q hsplit hlen
  rcases List.append_eq_append_iff.mp hsplit with ⟨l, hl1, hl2⟩ | ⟨l, hl1, hl2⟩
  · -- p = pre ++ l and c :: post = l ++ c' :: q
    cases l with
    | nil =>
      simp at hl1
      rw [hl1] at hlen
      omega
    | cons x l' =>
      have hx : x = c := by
        have := hl2.symm
        simp [List.cons_eq_cons] at this
        exact this.1
      rw [hl1, hx] at hlen
      rw [utf16Len_append] at hlen
      simp only [utf16Len] at hlen
      omega
  · -- pre = p ++ l, so p's count is at most pre's count
    rw [hl1, utf16Len_append] at hlen
    omega

/-- The total 16-bit length of the text is not the 16-bit count of any
proper prefix. -/
theorem total_never_inner_boundary (text : List Char) :
    ∀ p c q, text = p ++ c :: q → utf16Len p ≠ utf16Len text := by
  intro p c q hsplit hlen
  rw [hsplit, utf16Len_append] at hlen
  simp only [utf16Len] at hlen
  have := charLenUtf16_pos c
  omega

/-! Claim theorems. -/

/-- C1 counterexample: the emitted positions are not expressed in the
negotiated encoding for all three encodings. On the text `"あいう"` with
a message at column 2 (16-bit units), the published diagnostic carries
character 1 while the byte-count translation of that column is 3, and
the fix edit produced by `code_action` carries the 16-bit-unit position
of offset 1 (character 1) while the byte-count translation of that
offset is character 3: under a negotiated byte-count encoding the
emitted character counts are wrong. -/
theorem lint_positions_not_encoding_generic :
    (lint_and_publish true true (Except.ok [hiraResult]) "file:doc1"
        hiraText []).2 = some [buildDiagnostic hiraMsg] ∧
    (buildDiagnostic hiraMsg).range_start.character = 1 ∧
    textlint_column_to_character hiraText 0 hiraMsg.column
        PositionEncoding.Utf8 = 3 ∧
    (buildDiagnostic hiraMsg).range_start.character ≠
      textlint_column_to_character hiraText 0 hiraMsg.column
        PositionEncoding.Utf8 ∧
    code_action
        (lint_and_publish true true (Except.ok [hiraResult]) "file:doc1"
          hiraText []).1 "file:doc1" 0 5 =
      Except.ok (some [fixAction "file:doc1" hiraText hiraMsg hiraFix]) ∧
    (utf16_offset_to_position hiraText hiraFix.range.1).character = 1 ∧
    (offset_to_position hiraText hiraFix.range.1
        PositionEncoding.Utf8).character = 3 ∧
    (utf16_offset_to_position hiraText hiraFix.range.1).character ≠
      (offset_to_position hiraText hiraFix.range.1
        PositionEncoding.Utf8).character :=
  ⟨rfl, rfl, rfl, by decide, rfl, rfl, rfl, by decide⟩

/-- C1 (amended): every position emitted to the editor uses the
16-bit-unit encoding, regardless of any negotiated encoding: diagnostic
start/end characters equal the 16-bit-unit translation of the linter
column (`column - 1`), and every fix edit's positions are the
16-bit-unit translation of the fix's range offsets. -/
theorem all_emitted_positions_utf16 :
    (∀ (text : List Char) (msg : TextlintMessage),
      (buildDiagnostic msg).range_start.character =
        textlint_column_to_character text (msg.line - 1) msg.column
          PositionEncoding.Utf16 ∧
      (buildDiagnostic msg).range_end.character =
        textlint_column_to_character text (msg.line - 1) msg.column
          PositionEncoding.Utf16) ∧
    (∀ (uri : String) (text : List Char) (lo hi : Nat)
        (messages : List TextlintMessage) (a : CodeAction),
      a ∈ codeActionLoop uri text lo hi messages →
      ∃ msg fix, msg ∈ messages ∧ msg.fix = some fix ∧
        a.changes = [(uri,
          [{ range_start := utf16_offset_to_position text fix.range.1
             range_end := utf16_offset_to_position text fix.range.2
             new_text := fix.text }])]) := by
  constructor
  · intro text msg
    exact ⟨rfl, rfl⟩
  · intro uri text lo hi messages a ha
    induction messages with
    | nil => simp [codeActionLoop] at ha
    | cons msg rest ih =>
      cases hfix : msg.fix with
      | none =>
        simp only [codeActionLoop, hfix] at ha
        obtain ⟨m, f, hm, hf, hc⟩ := ih ha
        exact ⟨m, f, List.mem_cons_of_mem _ hm, hf, hc⟩
      | some fix =>
        simp only [codeActionLoop, hfix] at ha
        by_cases hline : msg.line - 1 < lo ∨ hi < msg.line - 1
        · rw [if_pos hline] at ha
          obtain ⟨m, f, hm, hf, hc⟩ := ih ha
          exact ⟨m, f, List.mem_cons_of_mem _ hm, hf, hc⟩
        · rw [if_neg hline] at ha
          rcases List.mem_cons.mp ha with h | h
          · exact ⟨msg, fix, List.mem_cons_self _ _, hfix, by rw [h]; rfl⟩
          · obtain ⟨m, f, hm, hf, hc⟩ := ih h
            exact ⟨m, f, List.mem_cons_of_mem _ hm, hf, hc⟩

/-- Witness for the amended C1 theorem: the single action produced for
`hiraText` with `hiraMsg` is the 16-bit-unit translation of its fix
range. -/
theorem all_emitted_positions_utf16_witness :
    fixAction "file:doc1" hiraText hiraMsg hiraFix ∈
      codeActionLoop "file:doc1" hiraText 0 5 [hiraMsg] ∧
    (∃ msg fix, msg ∈ [hiraMsg] ∧ msg.fix = some fix ∧
      (fixAction "file:doc1" hiraText hiraMsg hiraFix).changes = [("file:doc1",
        [{ range_start := utf16_offset_to_position hiraText fix.range.1
           range_end := utf16_offset_to_position hiraText fix.range.2
           new_text := fix.text }])]) :=
  ⟨by decide,
   all_emitted_positions_utf16.2 "file:doc1" hiraText 0 5 [hiraMsg]
     (fixAction "file:doc1" hiraText hiraMsg hiraFix) (by decide)⟩

/-- C2: for the text `"a" + U+20BB7 + "b"`, `offset_to_position` at
16-bit offset 1 returns character 1 under the 16-bit, code-point, and
byte encodings, and at 16-bit offset 3 returns character 3 (16-bit),
character 2 (code point), and character 5 (byte), all on line 0. -/
theorem surrogate_pair_offset_translation :
    offset_to_position surrogateText 1 PositionEncoding.Utf16 = ⟨0, 1⟩ ∧
    offset_to_position surrogateText 1 PositionEncoding.Utf32 = ⟨0, 1⟩ ∧
    offset_to_position surrogateText 1 PositionEncoding.Utf8 = ⟨0, 1⟩ ∧
    offset_to_position surrogateText 3 PositionEncoding.Utf16 = ⟨0, 3⟩ ∧
    offset_to_position surrogateText 3 PositionEncoding.Utf32 = ⟨0, 2⟩ ∧
    offset_to_position surrogateText 3 PositionEncoding.Utf8 = ⟨0, 5⟩ := by
  decide

/-- C3: the fix loop of `code_action` computes exactly the Fix Mapper
contract of the spec: messages iterated in order, fix-less messages and
messages whose 0-based line lies outside the inclusive requested range
skipped, one edit per surviving message translating the fix range
offsets via `offset_to_position` in 16-bit units, output in input
order. -/
theorem code_action_matches_fix_mapper_contract (uri : String)
    (text : List Char) (lo hi : Nat) (messages : List TextlintMessage) :
    codeActionLoop uri text lo hi messages =
      build_fixes_spec uri text lo hi messages := by
  induction messages with
  | nil => rfl
  | cons msg rest ih =>
    simp only [build_fixes_spec] at ih ⊢
    cases hfix : msg.fix with
    | none =>
      simp only [codeActionLoop, List.filterMap_cons, hfix, ih]
    | some fix =>
      by_cases hline : msg.line - 1 < lo ∨ hi < msg.line - 1
      · have hcond : ¬(lo ≤ msg.line - 1 ∧ msg.line - 1 ≤ hi) := by omega
        simp only [codeActionLoop, List.filterMap_cons, hfix, if_pos hline,
          if_neg hcond, ih]
      · have hcond : lo ≤ msg.line - 1 ∧ msg.line - 1 ≤ hi := by omega
        simp only [codeActionLoop, List.filterMap_cons, hfix, if_neg hline,
          if_pos hcond, ih]
        rfl

/-- C4 counterexample: with fixable messages on 1-based lines 1, 5 and 9
and a requested 0-based line range 0–4, the fix loop does NOT yield
exactly the fix of the line-5 message: the message on 1-based line 1
(0-based line 0) also lies inside the range, so two actions are
produced. -/
theorem viewport_filter_two_survivors :
    codeActionLoop "file:doc1" nineLineText 0 4 [lineMsg1, lineMsg5, lineMsg9] ≠
      [fixAction "file:doc1" nineLineText lineMsg5 lineFix5] ∧
    (codeActionLoop "file:doc1" nineLineText 0 4
        [lineMsg1, lineMsg5, lineMsg9]).length = 2 := by
  constructor
  · intro h
    have := congrArg List.length h
    simp at this
    revert this
    decide
  · decide

/-- C4 (amended): with fixable messages on 1-based lines 1, 5 and 9 and
a requested 0-based line range 0–4, the fix loop yields exactly the
fixes of the messages on lines 1 and 5 (0-based lines 0 and 4), in that
order, and excludes the message on line 9. -/
theorem viewport_filter_lines_one_and_five :
    codeActionLoop "file:doc1" nineLineText 0 4 [lineMsg1, lineMsg5, lineMsg9] =
      [fixAction "file:doc1" nineLineText lineMsg1 lineFix1,
       fixAction "file:doc1" nineLineText lineMsg5 lineFix5] := by
  decide

/-- C5 counterexample: when no message survives filtering (here: the
only stored message has no fix), `code_action` signals "no applicable
fixes" by the distinguished absence value `Ok(None)`, not by an empty
result list. -/
theorem no_fix_signaled_by_none :
    code_action noFixStore "file:doc1" 0 10 = Except.ok none ∧
    code_action noFixStore "file:doc1" 0 10 ≠
      Except.ok (some ([] : List CodeAction)) := by
  constructor
  · rfl
  · intro h
    rw [show code_action noFixStore "file:doc1" 0 10 = Except.ok none from rfl]
      at h
    simp at h

/-- C5 (amended): the fix mapper never raises an error — `code_action`
always returns `Ok`, in particular for a stored message without a fix or
without line overlap — and when no message survives filtering it signals
"no applicable fixes" by the distinguished absence value `Ok(None)`
rather than by an empty list. -/
theorem code_action_total_none_on_empty (state : Store) (uri : String)
    (lo hi : Nat) :
    (∃ v, code_action state uri lo hi = Except.ok v) ∧
    (∀ text messages, storeGet state uri = some (text, messages) →
      codeActionLoop uri text lo hi messages = [] →
      code_action state uri lo hi = Except.ok none) := by
  constructor
  · rw [code_action]
    cases h : storeGet state uri with
    | none => exact ⟨none, rfl⟩
    | some e =>
      rcases e with ⟨text, messages⟩
      by_cases he : (codeActionLoop uri text lo hi messages).isEmpty
      · exact ⟨none, by simp [he]⟩
      · exact ⟨some (codeActionLoop uri text lo hi messages), by simp [he]⟩
  · intro text messages hget hempty
    rw [code_action, hget]
    simp [hempty]

/-- Witness for the amended C5 theorem at the concrete store whose only
message carries no fix. -/
theorem code_action_total_none_on_empty_witness :
    code_action noFixStore "file:doc1" 0 10 = Except.ok none :=
  (code_action_total_none_on_empty noFixStore "file:doc1" 0 10).2
    hiraText [noFixMsg] (by decide) (by decide)

/-- C6: the diagnostic built inside `lint_and_publish` carries severity
"warning" exactly when the raw message's severity ordinal is 1, and
severity "error" for every other ordinal (0, 2, and any other value). -/
theorem severity_mapping (msg : TextlintMessage) :
    ((buildDiagnostic msg).severity = some DiagnosticSeverity.warning ↔
      msg.severity = 1) ∧
    ((buildDiagnostic msg).severity = some DiagnosticSeverity.error ↔
      msg.severity ≠ 1) := by
  rcases msg with ⟨rid, m, l, c, sev, f⟩
  rcases sev with _ | sev
  · simp [buildDiagnostic]
  · rcases sev with _ | sev <;> simp [buildDiagnostic]

/-- C7: when the linter invocation returns an error, `lint_and_publish`
publishes nothing and leaves the document state store unchanged,
whatever the prior store contents (prior diagnostics therefore stay in
effect until the next successful pass). -/
theorem linter_error_silent_noop (pathOk workDirOk : Bool) (e : String)
    (uri : String) (text : List Char) (state : Store) :
    lint_and_publish pathOk workDirOk (Except.error e) uri text state =
      (state, none) := by
  rcases pathOk <;> rcases workDirOk <;> rfl

/-- C8: `textlint_column_to_character` with a 1-based column of 0
returns the same character count as with a column of 1, for every text,
line and target encoding: the saturating subtraction sends both to a
target of 0 16-bit units, so a column of 0 never underflows. -/
theorem column_zero_saturates (text : List Char) (line_0based : Nat)
    (encoding : PositionEncoding) :
    textlint_column_to_character text line_0based 0 encoding =
      textlint_column_to_character text line_0based 1 encoding := rfl

/-- C9: the store keeps the text/messages pair as a single value per
key, replaced atomically by `upsert` (`DashMap::insert`); a get of
`"doc1"` interleaved after any number of the two upserts
`("v1", [msg_a])` then `("v2", [msg_b])` observes nothing or one of the
two complete pairs, never a mixed pair. -/
theorem upsert_atomic_pairs (n : Nat) :
    (storeGet (applyUpserts "doc1"
        ([(storeTextV1, [storeMsgA]), (storeTextV2, [storeMsgB])].take n) [])
        "doc1" = none ∨
     storeGet (applyUpserts "doc1"
        ([(storeTextV1, [storeMsgA]), (storeTextV2, [storeMsgB])].take n) [])
        "doc1" = some (storeTextV1, [storeMsgA]) ∨
     storeGet (applyUpserts "doc1"
        ([(storeTextV1, [storeMsgA]), (storeTextV2, [storeMsgB])].take n) [])
        "doc1" = some (storeTextV2, [storeMsgB])) ∧
    storeGet (applyUpserts "doc1"
        ([(storeTextV1, [storeMsgA]), (storeTextV2, [storeMsgB])].take n) [])
        "doc1" ≠ some (storeTextV1, [storeMsgB]) ∧
    storeGet (applyUpserts "doc1"
        ([(storeTextV1, [storeMsgA]), (storeTextV2, [storeMsgB])].take n) [])
        "doc1" ≠ some (storeTextV2, [storeMsgA]) := by
  match n with
  | 0 => decide
  | 1 => decide
  | n + 2 =>
    rw [List.take_of_length_le (by simp)]
    decide

/-- C10: an offset strictly between the two 16-bit units of a
surrogate-pair code point is never equal to the running 16-bit count,
so the scan of `offset_to_position` runs to the end of the text and the
returned position is the end-of-text position (the position of offset =
total 16-bit length) under every encoding. -/
theorem mid_surrogate_offset_runs_to_end (pre post : List Char) (c : Char)
    (enc : PositionEncoding) (hc : charLenUtf16 c = 2) :
    scanLoop (pre ++ c :: post) (utf16Len pre + 1) initScan =
      (pre ++ c :: post).foldl scanStep initScan ∧
    offset_to_position (pre ++ c :: post) (utf16Len pre + 1) enc =
      offset_to_position (pre ++ c :: post) (utf16Len (pre ++ c :: post))
        enc := by
  have h1 : scanLoop (pre ++ c :: post) (utf16Len pre + 1) initScan =
      (pre ++ c :: post).foldl scanStep initScan := by
    apply scanLoop_eq_foldl
    intro p c' q hpq
    have := mid_surrogate_never_boundary pre post c hc p c' q hpq
    simpa [initScan] using this
  have h2 : scanLoop (pre ++ c :: post) (utf16Len (pre ++ c :: post))
      initScan = (pre ++ c :: post).foldl scanStep initScan := by
    apply scanLoop_eq_foldl
    intro p c' q hpq
    have := total_never_inner_boundary (pre ++ c :: post) p c' q hpq
    simpa [initScan] using this
  refine ⟨h1, ?_⟩
  simp only [offset_to_position, h1, h2]

/-- Witness for the C10 theorem: in `"a" + U+20BB7 + "b"` the offset 2
falls strictly inside the surrogate pair, and `offset_to_position`
returns the end-of-text position. -/
theorem mid_surrogate_offset_runs_to_end_witness :
    charLenUtf16 (Char.ofNat 0x20BB7) = 2 ∧
    offset_to_position (['a'] ++ Char.ofNat 0x20BB7 :: ['b'])
        (utf16Len ['a'] + 1) PositionEncoding.Utf8 =
      offset_to_position (['a'] ++ Char.ofNat 0x20BB7 :: ['b'])
        (utf16Len (['a'] ++ Char.ofNat 0x20BB7 :: ['b']))
        PositionEncoding.Utf8 :=
  ⟨by decide,
   (mid_surrogate_offset_runs_to_end ['a'] ['b'] (Char.ofNat 0x20BB7)
     PositionEncoding.Utf8 (by decide)).2⟩

end IchigyoLs
